import Mathlib

/-!
Verification development for the contextual Cobweb core
(`concept_formation/contextual_cobweb.py`).

The development has two shallow embeddings:

* `EM` — a standalone model of `ContextualCobwebNode.is_exact_match`,
  including the numeric accumulator branch of the substrate.
* `CC` — an arena-style model of the tree driver (`ContextualCobwebTree`)
  with nodes and context handles addressed by index, state passed
  explicitly, and errors surfaced through `Except`.

Functions carry the names of the source methods.  Parts of the repository
that sit outside the provided sources (the base Cobweb / Cobweb3 substrate
and the `ContextInstance` class) are modelled from the specification and
marked as such in their doc comments.
-/

namespace ConceptFormation

/-- Lexicographic "greater or equal" on `(score, size, payload)` triples,
comparing score first and size second, ignoring the payload.  This is the
order used by the Python `list.sort(reverse=True)` calls in the source
(`get_best_operation` sorts `(cu, priority, name)` triples and
`two_best_children` sorts with `key=lambda x: x[:-1]`). -/
def keyGe {γ : Type} (x y : ℚ × ℕ × γ) : Prop :=
  y.1 < x.1 ∨ (x.1 = y.1 ∧ y.2.1 ≤ x.2.1)

instance keyGeDec {γ : Type} : DecidableRel (@keyGe γ) := by
  intro x y
  unfold keyGe
  infer_instance

instance keyGeTotal {γ : Type} : IsTotal (ℚ × ℕ × γ) keyGe := by
  constructor
  intro a b
  rcases lt_trichotomy a.1 b.1 with h | h | h
  · exact Or.inr (Or.inl h)
  · rcases le_total b.2.1 a.2.1 with h2 | h2
    · exact Or.inl (Or.inr ⟨h, h2⟩)
    · exact Or.inr (Or.inr ⟨h.symm, h2⟩)
  · exact Or.inl (Or.inl h)

instance keyGeTrans {γ : Type} : IsTrans (ℚ × ℕ × γ) keyGe := by
  constructor
  intro a b c hab hbc
  rcases hab with hab | ⟨hab1, hab2⟩
  · rcases hbc with hbc | ⟨hbc1, hbc2⟩
    · exact Or.inl (lt_trans hbc hab)
    · exact Or.inl (lt_of_eq_of_lt hbc1.symm hab)
  · rcases hbc with hbc | ⟨hbc1, hbc2⟩
    · exact Or.inl (lt_of_lt_of_eq hbc hab1.symm)
    · exact Or.inr ⟨hab1.trans hbc1, le_trans hbc2 hab2⟩

/-- Descending stable sort, the embedding of Python `list.sort(reverse=True)`
on the `(score, size, payload)` triples used by the source. -/
def sortDesc {γ : Type} (l : List (ℚ × ℕ × γ)) : List (ℚ × ℕ × γ) :=
  List.insertionSort keyGe l

namespace EM

/-- Reserved context attribute key (`ca_key` in the source). -/
def ca_key : String := "#Ctxt#"

/-- Hidden attributes are those whose name begins with an underscore
(`x[0] != "_"` in the source filters on the first character). -/
def hidden (a : String) : Bool := a.data.head? == some '_'

/-- Modelled from the spec: the continuous-value accumulator of the external
substrate keeps an online count, mean and sum of squared deviations for a
numeric attribute (spec section 2, component 1). -/
structure CV where
  num : ℕ
  mean : ℚ
  m2 : ℚ
deriving DecidableEq

/-- Modelled from the spec: the unbiased variance of the accumulator.  The
source compares `unbiased_std()` against `0.0`; the standard deviation of a
sample is zero exactly when this variance is zero, so the zero test on the
std is represented by the zero test on the variance. -/
def CV.unbiased_variance (c : CV) : ℚ :=
  if c.num ≤ 1 then 0 else c.m2 / ((c.num : ℚ) - 1)

/-- Modelled from the spec: the running mean of the accumulator. -/
def CV.unbiased_mean (c : CV) : ℚ := c.mean

/-- An attribute value of an instance: a categorical token or a number. -/
inductive PVal where
  | nom (s : String)
  | num (q : ℚ)
deriving DecidableEq

/-- The per-attribute table of `av_counts`: for numeric attributes a single
reserved accumulator entry (`cv_key`), plus value counts for nominal
values. -/
structure AttrTable where
  cv : Option CV
  noms : List (String × ℕ)
deriving DecidableEq

/-- Number of entries of the table, the `len(attr_counts)` of the source
(the accumulator entry counts as one key). -/
def AttrTable.size (t : AttrTable) : ℕ :=
  t.noms.length + (if t.cv.isSome then 1 else 0)

/-- An instance for the exact-match model: named attribute values plus the
optional reserved `CTX` entry holding context-handle ids. -/
structure EMInst where
  attrs : List (String × PVal)
  ctx : Option (List ℕ)
deriving DecidableEq

/-- The node data `is_exact_match` reads: the instance count, the per
attribute tables, and the `CTX` counter (present exactly when `ca_key` is a
key of `av_counts`), mapping context-handle ids to counts. -/
structure EMNode where
  count : ℕ
  av : List (String × AttrTable)
  ctxCounts : Option (List (ℕ × ℕ))
deriving DecidableEq

/-- Association-list lookup for string-keyed tables. -/
def lookup {α : Type} (l : List (String × α)) (k : String) : Option α :=
  (l.find? (fun p => p.1 == k)).map (fun p => p.2)

/-- The `attr_counts.get(value, 0)` of the source. -/
def lookupCount (l : List (String × ℕ)) (k : String) : ℕ :=
  ((l.find? (fun p => p.1 == k)).map (fun p => p.2)).getD 0

/-- Non-hidden attribute names of the instance:
`set(filter(lambda x: x[0] != "_", instance))` in the source. -/
def inst_attr_names (i : EMInst) : List String :=
  (i.attrs.map Prod.fst).filter (fun a => ! hidden a) ++
    (if i.ctx.isSome then [ca_key] else [])

/-- Modelled from the spec: `attrs()` of the base node enumerates the
non-hidden attribute names of `av_counts` (attributes whose name begins with
an underscore are hidden, spec section 6). -/
def node_attr_names (n : EMNode) : List String :=
  (n.av.map Prod.fst).filter (fun a => ! hidden a) ++
    (if n.ctxCounts.isSome then [ca_key] else [])

/-- Equality of Python sets represented as lists. -/
def set_eq {α : Type} [BEq α] (l₁ l₂ : List α) : Bool :=
  l₁.all (fun a => l₂.contains a) && l₂.all (fun a => l₁.contains a)

/-- The context test of `is_exact_match` executes the Python expression
`instance[ca_key] != attr_counts.keys()`, comparing the instance context
list against the key view of the counter.  A Python list never compares
equal to a dict key view, whatever the elements, so the equality half is
false for every pair of operands. -/
def list_eq_keys_view (_l _keys : List ℕ) : Bool := false

/-- The per-attribute body of the `for attr in self_attrs` loop of
`is_exact_match` (source lines 1163 to 1180). -/
def attr_ok (n : EMNode) (i : EMInst) (attr : String) : Bool :=
  if attr == ca_key then
    match n.ctxCounts, i.ctx with
    | some tbl, some l =>
        if ! list_eq_keys_view l (tbl.map Prod.fst) then false
        else tbl.all (fun p => p.2 == n.count)
    | _, _ => false
  else
    match lookup n.av attr, lookup i.attrs attr with
    | some tbl, some (PVal.num q) =>
        match tbl.cv with
        | none => false
        | some c =>
            decide (tbl.size = 1) && decide (c.num = n.count) &&
              decide (c.unbiased_variance = 0) && decide (c.unbiased_mean = q)
    | some tbl, some (PVal.nom v) => decide (lookupCount tbl.noms v = n.count)
    | _, _ => false

/-- Translated from `ContextualCobwebNode.is_exact_match` (source lines 1146
to 1181): compare the non-hidden attribute name sets, then run the
per-attribute checks, returning false at the first failure. -/
def is_exact_match (n : EMNode) (i : EMInst) : Bool :=
  let instAttrs := inst_attr_names i
  let selfAttrs := node_attr_names n
  if ! set_eq selfAttrs instAttrs then false
  else selfAttrs.all (fun attr => attr_ok n i attr)

/-- The right-hand side of claim C2, written from the claim text: every
non-hidden attribute of the instance is present in the node with count equal
to `self.count` and matching value, numeric attributes have zero variance
and mean equal to the instance value, and, when `CTX` is present, the keys
of the `CTX` multiset equal the instance context list and every `CTX` count
equals `self.count`. -/
def claim_cond (n : EMNode) (i : EMInst) : Bool :=
  i.attrs.all (fun p =>
    if hidden p.1 then true
    else
      match p.2 with
      | PVal.nom v =>
          match lookup n.av p.1 with
          | some tbl => decide (lookupCount tbl.noms v = n.count)
          | none => false
      | PVal.num q =>
          match lookup n.av p.1 with
          | some tbl =>
              match tbl.cv with
              | some c =>
                  decide (c.num = n.count) && decide (c.unbiased_variance = 0) &&
                    decide (c.unbiased_mean = q)
              | none => false
          | none => false) &&
  (match i.ctx with
   | none => true
   | some l =>
       match n.ctxCounts with
       | some tbl => set_eq (tbl.map Prod.fst) l && tbl.all (fun p => p.2 == n.count)
       | none => false)

/-- The amended characterization of `is_exact_match`: the node and instance
have the same non-hidden attribute names, the instance carries no `CTX`
entry, and every attribute passes the per-attribute check of the source. -/
def amended_cond (n : EMNode) (i : EMInst) : Bool :=
  set_eq (node_attr_names n) (inst_attr_names i) && i.ctx.isNone &&
    (inst_attr_names i).all (fun attr => attr_ok n i attr)

end EM

namespace CC

/-- Reserved context attribute key (`ca_key` in the source). -/
def ca_key : String := "#Ctxt#"

/-- Recursion cap of the contextual category-utility descent. -/
def depth_cap : ℕ := 6

/-- Compaction depth of `merge_contexts`. -/
def merge_depth : ℕ := depth_cap + 2

/-- An instance handled by the driver: nominal attribute values plus the
optional reserved `CTX` entry holding context-handle ids (`some []` models a
present but empty context list).  The numeric accumulators of the external
substrate are out of scope for the driver model (spec section 1), so values
are nominal tokens. -/
structure Inst where
  attrs : List (String × String)
  ctx : Option (List ℕ)
deriving DecidableEq

/-- The empty Python dict passed to `get_best_operation` by
`increment_and_restructure`. -/
def emptyInst : Inst := ⟨[], none⟩

/-- A concept node of the arena: counts, per-attribute nominal value counts,
the `CTX` counter with its presence flag and accumulated size, tree links by
index, the descendant registry, and the committed handle of the leaf (the
`context` field read by `merge_contexts`). -/
structure NodeData where
  count : ℕ
  nomCounts : List (String × List (String × ℕ))
  hasCtx : Bool
  ctxCounts : List (ℕ × ℕ)
  contextSize : ℕ
  childrenIds : List ℕ
  parent : Option ℕ
  descendants : List ℕ
  context : Option ℕ
deriving DecidableEq

/-- A freshly constructed `ContextualCobwebNode`. -/
def emptyNode : NodeData := ⟨0, [], false, [], 0, [], none, [], none⟩

/-- Modelled from the spec: a `ContextInstance` context handle (section 3):
either unadded, with a tentative path stored as a set of node ids and
`inst` the leaf of the path, or committed, with `inst` the final leaf. -/
structure HandleData where
  committed : Bool
  tenative_path : List ℕ
  inst : ℕ
deriving DecidableEq

/-- The driver state: the node arena, the handle arena, the root index, the
context weight, the sliding window of (instance, handle id) pairs, and an
instrumentation counter of fringe splits
(`insert_parent_with_current_counts` calls). -/
structure TreeState where
  nodes : List NodeData
  handles : List HandleData
  root : ℕ
  context_weight : ℚ
  window : List (Inst × ℕ)
  fringe_splits : ℕ
deriving DecidableEq

/-- The state built by the tree constructor: a single root node registered
as its own descendant. -/
def init : TreeState :=
  ⟨[{ emptyNode with descendants := [0] }], [], 0, 1, [], 0⟩

def getNode (s : TreeState) (i : ℕ) : NodeData := s.nodes.getD i emptyNode

def setNode (s : TreeState) (i : ℕ) (d : NodeData) : TreeState :=
  { s with nodes := s.nodes.set i d }

def getHandle (s : TreeState) (h : ℕ) : HandleData := s.handles.getD h ⟨false, [], 0⟩

def setHandle (s : TreeState) (h : ℕ) (d : HandleData) : TreeState :=
  { s with handles := s.handles.set h d }

/-- Modelled from the spec: `unadded()` of a context handle. -/
def unadded (s : TreeState) (h : ℕ) : Bool := ! (getHandle s h).committed

/-- Modelled from the spec: `desc_of(n)` holds when `n` is on the tentative
path of an unadded handle, or the committed leaf is a descendant of `n`
(section 4.2). -/
def desc_of (s : TreeState) (h n : ℕ) : Bool :=
  let hd := getHandle s h
  if hd.committed then (getNode s n).descendants.contains hd.inst
  else hd.tenative_path.contains n

/-- Modelled from the spec: `unadded_leaf(n)` holds when the handle is
unadded and its tentative leaf is `n`. -/
def unadded_leaf (s : TreeState) (h n : ℕ) : Bool :=
  ! (getHandle s h).committed && (getHandle s h).inst == n

/-- Modelled from the spec: the `ContextInstance` constructor stores the
path as a set and the last node of the path as the tentative leaf. -/
def new_handle (s : TreeState) (path : List ℕ) : ℕ × TreeState :=
  (s.handles.length,
   { s with handles := s.handles ++ [⟨false, path.eraseDups, path.getLastD 0⟩] })

/-- Modelled from the spec: `set_path` replaces the tentative path by the
set of nodes of the sequence and the tentative leaf by its last node. -/
def set_path (s : TreeState) (h : ℕ) (path : List ℕ) : TreeState :=
  setHandle s h
    { getHandle s h with tenative_path := path.eraseDups, inst := path.getLastD 0 }

/-- Modelled from the spec: restore a saved tentative path and leaf
(`set_path_from_set` in the source). -/
def set_path_from_set (s : TreeState) (h : ℕ) (p : List ℕ) (i : ℕ) : TreeState :=
  setHandle s h { getHandle s h with tenative_path := p, inst := i }

/-- Modelled from the spec: `insert_into_path` adds a node to the tentative
path set. -/
def insert_into_path (s : TreeState) (h n : ℕ) : TreeState :=
  let hd := getHandle s h
  setHandle s h
    { hd with tenative_path :=
        if hd.tenative_path.contains n then hd.tenative_path
        else hd.tenative_path ++ [n] }

/-- Walk from a node to the root adding a leaf to every descendant
registry on the way (fuelled parent walk). -/
def register_desc : ℕ → TreeState → ℕ → ℕ → TreeState
  | 0, s, _, _ => s
  | f + 1, s, cur, leaf =>
    let d := getNode s cur
    let s1 := setNode s cur
      { d with descendants :=
          if d.descendants.contains leaf then d.descendants
          else d.descendants ++ [leaf] }
    match d.parent with
    | none => s1
    | some p => register_desc f s1 p leaf

/-- Modelled from the spec: `set_instance` commits the handle to the leaf,
registers the leaf in the descendant registries up to the root (section
4.1), and records the handle on the leaf node (the `context` field read by
`merge_contexts`). -/
def set_instance (s : TreeState) (h nid : ℕ) : TreeState :=
  let s1 := setHandle s h { getHandle s h with committed := true, inst := nid }
  let s2 := register_desc (s1.nodes.length + 1) s1 nid nid
  setNode s2 nid { getNode s2 nid with context := some h }

/-- Translated from `ContextualCobwebTree.__path_eq`: the paths are equal
when the lengths agree and every node of the tuple path lies in the set
path. -/
def path_eq (sp tp : List ℕ) : Bool :=
  tp.length == sp.length && tp.all (fun n => sp.contains n)

/-- Counter update: add `k` to the entry of `v`, creating it if absent. -/
def addCount {α : Type} [BEq α] (l : List (α × ℕ)) (v : α) (k : ℕ) : List (α × ℕ) :=
  if l.any (fun p => p.1 == v) then
    l.map (fun p => if p.1 == v then (p.1, p.2 + k) else p)
  else l ++ [(v, k)]

/-- Nominal table update: add `k` to the count of value `v` of attribute
`a`, creating entries as needed. -/
def addNom (tbl : List (String × List (String × ℕ))) (a v : String) (k : ℕ) :
    List (String × List (String × ℕ)) :=
  if tbl.any (fun p => p.1 == a) then
    tbl.map (fun p => if p.1 == a then (p.1, addCount p.2 v k) else p)
  else tbl ++ [(a, [(v, k)])]

/-- Python set union of id lists, keeping insertion order. -/
def unionList (l₁ l₂ : List ℕ) : List ℕ :=
  l₁ ++ l₂.filter (fun x => ! l₁.contains x)

/-- Translated from `ContextualCobwebNode.increment_counts` (source lines
520 to 555): bump the total count; for `CTX` create the counter entry even
for an empty context list, add the handle multiset and extend
`context_size`; bump the nominal value counts for the other attributes. -/
def increment_counts (d : NodeData) (i : Inst) : NodeData :=
  let d1 := { d with count := d.count + 1 }
  let d2 :=
    match i.ctx with
    | some l =>
        { d1 with hasCtx := true,
                  ctxCounts := l.foldl (fun acc h => addCount acc h 1) d1.ctxCounts,
                  contextSize := d1.contextSize + l.length }
    | none => d1
  { d2 with nomCounts := i.attrs.foldl (fun acc p => addNom acc p.1 p.2 1) d2.nomCounts }

/-- Translated from `ContextualCobwebNode.update_counts_from_node` (source
lines 686 to 720): sum the counts, union the descendant registries, merge
the `CTX` counter and context size, and merge the nominal tables (the
iteration covers the full attribute set, hidden attributes included). -/
def update_counts_from_node (d other : NodeData) : NodeData :=
  { d with
    count := d.count + other.count,
    descendants := unionList d.descendants other.descendants,
    hasCtx := d.hasCtx || other.hasCtx,
    ctxCounts := other.ctxCounts.foldl (fun acc p => addCount acc p.1 p.2) d.ctxCounts,
    contextSize := d.contextSize + (if other.hasCtx then other.contextSize else 0),
    nomCounts := other.nomCounts.foldl
      (fun acc p => p.2.foldl (fun acc2 q => addNom acc2 p.1 q.1 q.2) acc) d.nomCounts }

/-- Translated from `ContextualCobwebNode.increment_all_counts` (source
lines 672 to 684): walk to the root calling `increment_counts` (fuelled
parent walk). -/
def increment_all_counts : ℕ → TreeState → ℕ → Inst → TreeState
  | 0, s, _, _ => s
  | f + 1, s, nid, i =>
    let s1 := setNode s nid (increment_counts (getNode s nid) i)
    match (getNode s nid).parent with
    | none => s1
    | some p => increment_all_counts f s1 p i

/-- The scan over the context counter performed at each node of
`__exp_ctxt_helper` (source lines 843 to 859): collect the context handles
that descend through the current node, their total count (`extra_guesses`),
the squared and cumulative counts of unadded leaves here, and the count of
the committed leaf here (a plain assignment in the source, so the last
matching handle wins). -/
def ctxt_scan (s : TreeState) (cur : ℕ) (ctxt : List (ℕ × ℕ)) :
    List (ℕ × ℕ) × ℕ × ℕ × ℕ × ℕ :=
  ctxt.foldl
    (fun acc p =>
      let (descs, extra, squared, cum, added) := acc
      if desc_of s p.1 cur then
        if unadded_leaf s p.1 cur then
          (descs ++ [p], extra + p.2, squared + p.2 * p.2, cum + p.2, added)
        else (descs ++ [p], extra + p.2, squared, cum, p.2)
      else acc)
    ([], 0, 0, 0, 0)

/-- Translated from `ContextualCobwebNode.__exp_ctxt_helper` (source lines
830 to 891): the recursive contextual descent, capped at `depth_cap`.  The
fuel argument is a harness device; the source recursion strictly increases
`partial_len` and stops at `depth_cap`, so any fuel above `depth_cap + 1`
is never exhausted. -/
def exp_ctxt_helper : ℕ → TreeState → ℕ → ℕ → ℕ → List (ℕ × ℕ) → ℚ
  | 0, _, _, _, _, _ => 0
  | f + 1, s, cur, pg, pl, ctxt =>
    let (descs, extra, squared, cum, added) := ctxt_scan s cur ctxt
    if extra = 0 then 0
    else
      let npg := pg + extra
      let npl := pl + 1
      let pcu : ℚ := if cum ≠ 0 then ((cum * npg + squared : ℕ) : ℚ) / ((npl : ℚ) + 1) else 0
      if depth_cap ≤ pl ∨ (getNode s cur).childrenIds = [] then
        ((added * npg : ℕ) : ℚ) / (npl : ℚ) + pcu
      else
        ((getNode s cur).childrenIds.map
          (fun c => exp_ctxt_helper f s c npg npl descs)).sum + pcu

/-- Translated from `ContextualCobwebNode.__expected_contextual` (source
lines 796 to 818): return `0` when the context size of the node is zero,
otherwise divide the helper total by the squared context size. -/
def expected_contextual (s : TreeState) (d : NodeData) (ctxt : List (ℕ × ℕ)) : ℚ :=
  if d.contextSize = 0 then 0
  else
    exp_ctxt_helper (depth_cap + 2) s s.root 0 0 ctxt /
      ((d.contextSize : ℚ) * (d.contextSize : ℚ))

/-- Translated from `ContextualCobwebNode.expected_correct_guesses` (source
lines 722 to 784), restricted to nominal and contextual attributes (the
numeric accumulator branch belongs to the external substrate, spec section
1): sum the squared value probabilities per nominal attribute, add the
weighted contextual term when `CTX` is present, and divide by the weighted
attribute count. -/
def expected_correct_guesses (s : TreeState) (d : NodeData) : ℚ :=
  let noms := d.nomCounts.filter (fun p => ! EM.hidden p.1)
  let nomPart : ℚ :=
    (noms.map (fun p =>
      (p.2.map (fun q => ((q.2 : ℚ) / (d.count : ℚ)) * ((q.2 : ℚ) / (d.count : ℚ)))).sum)).sum
  let correct :=
    nomPart +
      (if d.hasCtx then s.context_weight * expected_contextual s d d.ctxCounts else 0)
  let attrCount : ℚ :=
    (noms.length : ℚ) + (if d.hasCtx then s.context_weight else 0)
  correct / attrCount

/-- Modelled from the spec: category utility of a hypothetical node given
the data of its children — the child-weighted expected correct guesses
minus the node baseline, divided by the number of children (glossary entry
for category utility).  The base-Cobweb formula lives in the external
substrate; only comparisons between these scores matter to the driver. -/
def category_utility_over (s : TreeState) (d : NodeData) (childData : List NodeData) : ℚ :=
  ((childData.map (fun c => ((c.count : ℚ) / (d.count : ℚ)) * expected_correct_guesses s c)).sum
      - expected_correct_guesses s d) / (childData.length : ℚ)

/-- Modelled from the spec: `cu_for_new_child` — the category utility of
the node after incorporating the instance and giving it a fresh leaf child
built from the instance (spec section 4.4). -/
def cu_for_new_child (s : TreeState) (nid : ℕ) (i : Inst) : ℚ :=
  let d := getNode s nid
  category_utility_over s (increment_counts d i)
    ((d.childrenIds.map (getNode s)) ++ [increment_counts emptyNode i])

/-- Modelled from the spec: `cu_for_merge` — the category utility of the
node if its two best children were combined into a new child holding the
instance (spec section 4.4). -/
def cu_for_merge (s : TreeState) (nid b1 b2 : ℕ) (i : Inst) : ℚ :=
  let d := getNode s nid
  let merged :=
    increment_counts
      (update_counts_from_node (update_counts_from_node emptyNode (getNode s b1))
        (getNode s b2)) i
  category_utility_over s (increment_counts d i)
    ((((d.childrenIds.erase b1).erase b2).map (getNode s)) ++ [merged])

/-- Modelled from the spec: `cu_for_split` — the category utility of the
node after promoting the children of the best child and removing it (spec
section 4.4). -/
def cu_for_split (s : TreeState) (nid b1 : ℕ) : ℚ :=
  let d := getNode s nid
  category_utility_over s d
    ((((d.childrenIds.erase b1) ++ (getNode s b1).childrenIds).map (getNode s)))

/-- Modelled from the spec: the relative category utility of inserting the
instance into a child, part of the base-Cobweb substrate behind
`two_best_children` (spec section 4.4). -/
def relative_cu_for_insert (s : TreeState) (child : ℕ) (i : Inst) : ℚ :=
  (((getNode s child).count : ℚ) + 1) * expected_correct_guesses s (increment_counts (getNode s child) i)
    - ((getNode s child).count : ℚ) * expected_correct_guesses s (getNode s child)

/-- Modelled from the spec: the additive constant converting relative
insert scores into comparable category utilities, part of the base-Cobweb
substrate behind `two_best_children` (spec section 4.4). -/
def compute_relative_CU_const (s : TreeState) (nid : ℕ) (i : Inst) : ℚ :=
  -(expected_correct_guesses s (increment_counts (getNode s nid) i)) /
    (((getNode s nid).childrenIds.length : ℚ) + 1)

/-- Failure modes of the driver, the Python exceptions of the source plus
fuel exhaustion of the embedding. -/
inductive Err where
  | assertionFailed
  | noChildren
  | indexError
  | keyError
  | valueError
  | typeError
  | attributeError
  | notImplemented
  | unknownOperation
  | fuelOut
deriving DecidableEq

/-- The sort key of `two_best_children`
(`(relative cu, child count, child)` with the child excluded from the
comparison). -/
def child_key (s : TreeState) (i : Inst) (c : ℕ) : ℚ × ℕ × ℕ :=
  (relative_cu_for_insert s c i, (getNode s c).count, c)

/-- Translated from `ContextualCobwebNode.two_best_children` (source lines
1016 to 1056): raise on a childless node; with a single child scale its
relative score; otherwise sort the children by (relative cu, count)
descending and return the converted best score, the best child and the
second best child. -/
def two_best_children (s : TreeState) (nid : ℕ) (i : Inst) :
    Except Err (ℚ × ℕ × Option ℕ) :=
  let d := getNode s nid
  match d.childrenIds with
  | [] => .error .noChildren
  | [c] =>
      .ok (relative_cu_for_insert s c i / ((d.count : ℚ) + 1) / 1 +
            compute_relative_CU_const s nid i, c, none)
  | c1 :: c2 :: rest =>
      match sortDesc ((c1 :: c2 :: rest).map (child_key s i)) with
      | x :: y :: _ =>
          .ok (x.1 / ((d.count : ℚ) + 1) / (((c1 :: c2 :: rest).length : ℚ)) +
                compute_relative_CU_const s nid i, x.2.2, some y.2.2)
      | _ => .error .indexError

/-- The operation list built by `get_best_operation` (source lines 1000 to
1010): `(cu, priority, name)` triples for the entertained operations, with
merge requiring more than two children and a second best child, and split
requiring the best child to have children. -/
def build_operations (s : TreeState) (nid : ℕ) (i : Inst) (best1 : ℕ)
    (best2 : Option ℕ) (best1_cu : ℚ) (possible_ops : List String) :
    List (ℚ × ℕ × String) :=
  (if possible_ops.contains "best" then [(best1_cu, 3, "best")] else []) ++
  (if possible_ops.contains "new" then [(cu_for_new_child s nid i, 2, "new")] else []) ++
  (if possible_ops.contains "merge" && decide (2 < (getNode s nid).childrenIds.length)
      && best2.isSome then
    [(cu_for_merge s nid best1 (best2.getD 0) i, 0, "merge")]
  else []) ++
  (if possible_ops.contains "split" && decide (0 < (getNode s best1).childrenIds.length) then
    [(cu_for_split s nid best1, 1, "split")]
  else [])

/-- Translated from `ContextualCobwebNode.get_best_operation` (source lines
926 to 1014): build the entertained operations, sort them descending and
return the score and name of the first; an empty list is the Python
IndexError of `operations[0]`. -/
def get_best_operation (s : TreeState) (nid : ℕ) (i : Inst) (best1 : ℕ)
    (best2 : Option ℕ) (best1_cu : ℚ) (possible_ops : List String) :
    Except Err (ℚ × String) :=
  match sortDesc (build_operations s nid i best1 best2 best1_cu possible_ops) with
  | [] => .error .indexError
  | x :: _ => .ok (x.1, x.2.2)

/-- The loop of `ContextualCobwebTree.cobweb_path` (source lines 259 to
309): append the current node; stop at a leaf; otherwise take the two best
children, ask `get_best_operation` for `best` or `new`, descend on `best`,
stop on `new`, and raise on anything else.  The state is threaded through
the descent; the fuel bounds the number of visited nodes. -/
def cobweb_path_go : ℕ → TreeState → Inst → ℕ → List ℕ →
    (Except Err (List ℕ)) × TreeState
  | 0, s, _, _, _ => (.error .fuelOut, s)
  | f + 1, s, i, cur, acc =>
    let acc1 := acc ++ [cur]
    if (getNode s cur).childrenIds = [] then (.ok acc1, s)
    else
      match two_best_children s cur i with
      | .error e => (.error e, s)
      | .ok (b1cu, b1, b2) =>
        match get_best_operation s cur i b1 b2 b1cu ["best", "new"] with
        | .error e => (.error e, s)
        | .ok (_, act) =>
          if act = "best" then cobweb_path_go f s i b1 acc1
          else if act = "new" then (.ok acc1, s)
          else (.error .unknownOperation, s)

/-- Translated from `ContextualCobwebTree.cobweb_path`: run the descent
from the root. -/
def cobweb_path (f : ℕ) (s : TreeState) (i : Inst) :
    (Except Err (List ℕ)) × TreeState :=
  cobweb_path_go f s i s.root []

/-- One recorded level of `cobweb_path_and_restructurings`:
`(current, action_cu, best1_cu, best2, best1)`. -/
structure ActionRec where
  current : ℕ
  action_cu : ℚ
  best1_cu : ℚ
  best2 : Option ℕ
  best1 : ℕ
deriving DecidableEq

/-- The loop of `ContextualCobwebTree.cobweb_path_and_restructurings`
(source lines 311 to 334): the same descent as `cobweb_path`, recording at
each non-leaf level the action tuple, then moving to the best child and
stopping when the action was `new`. -/
def cpr_go : ℕ → TreeState → Inst → ℕ → List ℕ → List ActionRec →
    (Except Err (List ℕ × List ActionRec)) × TreeState
  | 0, s, _, _, _, _ => (.error .fuelOut, s)
  | f + 1, s, i, cur, accPath, accActs =>
    let path1 := accPath ++ [cur]
    if (getNode s cur).childrenIds = [] then (.ok (path1, accActs), s)
    else
      match two_best_children s cur i with
      | .error e => (.error e, s)
      | .ok (b1cu, b1, b2) =>
        match get_best_operation s cur i b1 b2 b1cu ["best", "new"] with
        | .error e => (.error e, s)
        | .ok (acu, act) =>
          let acts1 := accActs ++ [⟨cur, acu, b1cu, b2, b1⟩]
          if act = "new" then (.ok (path1, acts1), s)
          else cpr_go f s i b1 path1 acts1

/-- Translated from `cobweb_path_and_restructurings`: run the recording
descent from the root. -/
def cobweb_path_and_restructurings (f : ℕ) (s : TreeState) (i : Inst) :
    (Except Err (List ℕ × List ActionRec)) × TreeState :=
  cpr_go f s i s.root [] []

/-- Modelled from the spec: `create_new_child` allocates a new leaf with
counts initialized from the instance, appends it to the children and sets
the parent back-pointer (spec section 4.1). -/
def create_new_child (s : TreeState) (pid : ℕ) (i : Inst) : ℕ × TreeState :=
  let nid := s.nodes.length
  let child := { increment_counts emptyNode i with parent := some pid }
  let s1 := { s with nodes := s.nodes ++ [child] }
  let s2 := setNode s1 pid
    { getNode s1 pid with childrenIds := (getNode s1 pid).childrenIds ++ [nid] }
  (nid, s2)

/-- Translated from `ContextualCobwebNode.create_new_leaf` (source lines
1058 to 1073): create the child and commit the handle to it. -/
def create_new_leaf (s : TreeState) (pid : ℕ) (i : Inst) (h : ℕ) : ℕ × TreeState :=
  let (nid, s1) := create_new_child s pid i
  (nid, set_instance s1 h nid)

/-- Translated from
`ContextualCobwebNode.insert_parent_with_current_counts` (source lines 1080
to 1106): for a node with positive count, allocate a parent holding a copy
of its counts, splice it between the node and its old parent (updating the
root when the node was the root), and return it; with count zero the Python
function falls through and returns `None`.  The embedding also increments
the fringe-split instrumentation counter. -/
def insert_parent_with_current_counts (s : TreeState) (nid : ℕ) :
    Option ℕ × TreeState :=
  if 0 < (getNode s nid).count then
    let newId := s.nodes.length
    let base := update_counts_from_node emptyNode (getNode s nid)
    let par := (getNode s nid).parent
    let s1 :=
      { s with nodes := s.nodes ++ [{ base with parent := par, childrenIds := [nid] }],
               fringe_splits := s.fringe_splits + 1 }
    let s2 :=
      match par with
      | some p =>
          setNode s1 p
            { getNode s1 p with childrenIds :=
                (getNode s1 p).childrenIds.map (fun c => if c = nid then newId else c) }
      | none => { s1 with root := newId }
    (some newId, setNode s2 nid { getNode s2 nid with parent := some newId })
  else (none, s)

/-- Modelled from the spec: `merge(best1, best2)` creates a new child of
the node holding the summed counts of the two best children, moves them
under it and removes them from the children list (spec section 4.1). -/
def merge_nodes (s : TreeState) (cur b1 b2 : ℕ) : TreeState :=
  let newId := s.nodes.length
  let m := update_counts_from_node (update_counts_from_node emptyNode (getNode s b1))
    (getNode s b2)
  let s1 := { s with nodes := s.nodes ++ [{ m with parent := some cur, childrenIds := [b1, b2] }] }
  let s2 := setNode s1 cur
    { getNode s1 cur with childrenIds :=
        ((getNode s1 cur).childrenIds.erase b1).erase b2 ++ [newId] }
  let s3 := setNode s2 b1 { getNode s2 b1 with parent := some newId }
  setNode s3 b2 { getNode s3 b2 with parent := some newId }

/-- Modelled from the spec: `split(best1)` promotes the children of the
best child to the node and removes the best child from the children list
(spec section 4.1). -/
def split_node (s : TreeState) (cur b1 : ℕ) : TreeState :=
  let bc := (getNode s b1).childrenIds
  let s1 := setNode s cur
    { getNode s cur with childrenIds := (getNode s cur).childrenIds.erase b1 ++ bc }
  bc.foldl (fun st c => setNode st c { getNode st c with parent := some cur }) s1

/-- The loop of `ContextualCobwebTree.__merge_update` (source lines 426 to
433) over the unadded window: assert each handle unadded, and insert the
new merge parent into the path of every handle descending through either
merged node. -/
def merge_update_go (n1 n2 : ℕ) : List (Inst × ℕ) → TreeState →
    (Except Err Unit) × TreeState
  | [], s => (.ok (), s)
  | (_, h) :: rest, s =>
    if ! unadded s h then (.error .assertionFailed, s)
    else
      let s1 :=
        if desc_of s h n1 || desc_of s h n2 then
          insert_into_path s h ((getNode s n1).parent.getD 0)
        else s
      merge_update_go n1 n2 rest s1

/-- Translated from `__merge_update`: run the window rewrite. -/
def merge_update (s : TreeState) (n1 n2 : ℕ) : (Except Err Unit) × TreeState :=
  merge_update_go n1 n2 s.window s

/-- The loop of `ContextualCobwebTree.__split_update` (source lines 435 to
441): assert each handle unadded, and repoint handles sitting exactly on
the removed node to its parent. -/
def split_update_go (dead : ℕ) : List (Inst × ℕ) → TreeState →
    (Except Err Unit) × TreeState
  | [], s => (.ok (), s)
  | (_, h) :: rest, s =>
    if ! unadded s h then (.error .assertionFailed, s)
    else
      let s1 :=
        if (getHandle s h).inst == dead then
          setHandle s h { getHandle s h with inst := (getNode s dead).parent.getD 0 }
        else s
      split_update_go dead rest s1

/-- Translated from `__split_update`: run the window rewrite. -/
def split_update (s : TreeState) (dead : ℕ) : (Except Err Unit) × TreeState :=
  split_update_go dead s.window s

/-- The loop of `ContextualCobwebTree.__fringe_split_update` (source lines
443 to 454): assert each handle unadded and, when the fringe leaf is on a
tentative path, that the handle sits exactly on it; then insert the new
parent into the path and push the handle down to the parent. -/
def fringe_split_update_go (leafId : ℕ) : List (Inst × ℕ) → TreeState →
    (Except Err Unit) × TreeState
  | [], s => (.ok (), s)
  | (_, h) :: rest, s =>
    if ! unadded s h then (.error .assertionFailed, s)
    else if (getHandle s h).tenative_path.contains leafId && ! unadded_leaf s h leafId then
      (.error .assertionFailed, s)
    else
      let s1 :=
        if unadded_leaf s h leafId then
          let s2 := insert_into_path s h ((getNode s leafId).parent.getD 0)
          setHandle s2 h
            { getHandle s2 h with
                inst := (getNode s2 (getHandle s2 h).inst).parent.getD 0 }
        else s
      fringe_split_update_go leafId rest s1

/-- Translated from `__fringe_split_update`: run the window rewrite. -/
def fringe_split_update (s : TreeState) (leafId : ℕ) : (Except Err Unit) × TreeState :=
  fringe_split_update_go leafId s.window s

/-- Nominal lookup `attr_counts.get(instance[attr], 0)` on driver node
data. -/
def nom_count (d : NodeData) (attr v : String) : ℕ :=
  match d.nomCounts.find? (fun q => q.1 == attr) with
  | some q => (((q.2.find? (fun r => r.1 == v)).map (fun r => r.2)).getD 0)
  | none => 0

/-- Non-hidden attribute names of a driver instance. -/
def inst_attr_names (i : Inst) : List String :=
  (i.attrs.map Prod.fst).filter (fun a => ! EM.hidden a) ++
    (if i.ctx.isSome then [ca_key] else [])

/-- Translated from `ContextualCobwebNode.is_exact_match` (source lines
1146 to 1181), restricted to driver data (nominal and context values):
compare the non-hidden attribute name sets, then check each attribute:
the context branch compares the instance context list against the key view
of the counter — never equal in Python — and nominal values must carry the
full node count. -/
def is_exact_match (d : NodeData) (i : Inst) : Bool :=
  let selfAttrs := (d.nomCounts.map Prod.fst).filter (fun a => ! EM.hidden a) ++
    (if d.hasCtx then [ca_key] else [])
  if ! EM.set_eq selfAttrs (inst_attr_names i) then false
  else
    selfAttrs.all (fun attr =>
      if attr == ca_key then
        match i.ctx with
        | some l =>
            if ! EM.list_eq_keys_view l (d.ctxCounts.map Prod.fst) then false
            else d.ctxCounts.all (fun p => p.2 == d.count)
        | none => false
      else
        match i.attrs.find? (fun p => p.1 == attr) with
        | some p => decide (nom_count d attr p.2 = d.count)
        | none => false)

/-- The body of the restructuring loop of `increment_and_restructure`
(source lines 398 to 424) at one recorded level: skip when the current node
has at most two children and the best child is a leaf; otherwise ask
`get_best_operation` for `split` or `merge` with an empty instance, do
nothing unless the winner strictly beats the recorded score, and perform
the winning merge or split with its window rewrite (the asserts of the
source become assertion errors). -/
def restructure_step (s : TreeState) (r : ActionRec) : (Except Err Unit) × TreeState :=
  if (getNode s r.current).childrenIds.length ≤ 2 ∧
      (getNode s r.best1).childrenIds.length = 0 then
    (.ok (), s)
  else
    match get_best_operation s r.current emptyInst r.best1 r.best2 r.best1_cu
        ["split", "merge"] with
    | .error e => (.error e, s)
    | .ok (ncu, nact) =>
      if ncu ≤ r.action_cu then (.ok (), s)
      else if nact = "merge" then
        if ¬ 2 < (getNode s r.current).childrenIds.length then (.error .assertionFailed, s)
        else
          match r.best2 with
          | none => (.error .attributeError, s)
          | some b2 =>
            let s1 := merge_nodes s r.current r.best1 b2
            merge_update s1 r.best1 b2
      else if nact = "split" then
        if ¬ 1 < (getNode s r.best1).childrenIds.length then (.error .assertionFailed, s)
        else split_update (split_node s r.current r.best1) r.best1
      else (.error .unknownOperation, s)

/-- Process a list of recorded actions in order with `restructure_step`,
stopping at the first error. -/
def restructure_go : List ActionRec → TreeState → (Except Err Unit) × TreeState
  | [], s => (.ok (), s)
  | r :: rest, s =>
    match restructure_step s r with
    | (.ok _, s1) => restructure_go rest s1
    | (.error e, s1) => (.error e, s1)

/-- Translated from `ContextualCobwebTree.increment_and_restructure`
(source lines 390 to 424): increment the counts up to the root, then
process the recorded actions in reversed (deepest first) order. -/
def increment_and_restructure (s : TreeState) (i : Inst) (where_to_add : ℕ)
    (actions : List ActionRec) : (Except Err Unit) × TreeState :=
  restructure_go actions.reverse
    (increment_all_counts (s.nodes.length + 1) s where_to_add i)

/-- Translated from `ContextualCobwebTree.add_by_path` (source lines 336 to
388): add below a non-leaf target, reuse an empty or exactly matching leaf,
or fringe split — inserting a parent with the leaf counts, creating the new
sibling leaf, rewriting the window and redirecting the last recorded action
to the new parent — and in every case increment and restructure.  The
unadded window is `s.window` (the driver pops the committed pair first). -/
def add_by_path (s : TreeState) (i : Inst) (h : ℕ) (actions : List ActionRec) :
    (Except Err ℕ) × TreeState :=
  let where_to_add := (getHandle s h).inst
  if (getNode s where_to_add).childrenIds ≠ [] then
    let (leaf, s1) := create_new_leaf s where_to_add i h
    match increment_and_restructure s1 i where_to_add actions with
    | (.ok _, s2) => (.ok leaf, s2)
    | (.error e, s2) => (.error e, s2)
  else if (getNode s where_to_add).count = 0 ∨
      is_exact_match (getNode s where_to_add) i = true then
    let s1 := set_instance s h where_to_add
    match increment_and_restructure s1 i where_to_add actions with
    | (.ok _, s2) => (.ok where_to_add, s2)
    | (.error e, s2) => (.error e, s2)
  else
    match insert_parent_with_current_counts s where_to_add with
    | (none, s1) => (.error .attributeError, s1)
    | (some newP, s1) =>
      let (leaf, s2) := create_new_leaf s1 newP i h
      match fringe_split_update s2 where_to_add with
      | (.error e, s3) => (.error e, s3)
      | (.ok _, s3) =>
        let actions1 :=
          match actions.getLast? with
          | none => actions
          | some last => actions.dropLast ++ [{ last with best1 := newP }]
        match increment_and_restructure s3 i newP actions1 with
        | (.ok _, s4) => (.ok leaf, s4)
        | (.error e, s4) => (.error e, s4)

/-- Depth-first enumeration of the tree below a node (`tree_iterator` of
the source), fuelled. -/
def tree_iterator_go : ℕ → TreeState → ℕ → List ℕ
  | 0, _, _ => []
  | f + 1, s, nid =>
    nid :: ((getNode s nid).childrenIds.map (fun c => tree_iterator_go f s c)).flatten

/-- The leaf-level action of `__merge_context_helper` (source lines 912 to
924): among the descendants carrying a committed context handle, keep the
first as representative, map the handles of the rest to it and clear their
`context` fields. -/
def merge_context_leaf (s : TreeState) (nid : ℕ) : List (ℕ × ℕ) × TreeState :=
  if (getNode s nid).descendants = [] then ([], s)
  else
    match (getNode s nid).descendants.filter (fun x => ((getNode s x).context).isSome) with
    | [] => ([], s)
    | repLeaf :: rest =>
      let rep := ((getNode s repLeaf).context).getD 0
      rest.foldl
        (fun acc leaf =>
          let old := ((getNode acc.2 leaf).context).getD 0
          (acc.1 ++ [(old, rep)],
           setNode acc.2 leaf { getNode acc.2 leaf with context := none }))
        ([], s)

/-- Worklist form of `__merge_context_helper` (source lines 907 to 911):
descend `depth_left` levels and collect the leaf-level update mappings in
depth-first order. -/
def merge_context_work : ℕ → TreeState → List (ℕ × ℕ) → List (ℕ × ℕ) × TreeState
  | 0, s, _ => ([], s)
  | _ + 1, s, [] => ([], s)
  | f + 1, s, (nid, dl) :: rest =>
    if dl = 0 then
      let (m, s1) := merge_context_leaf s nid
      let (m2, s2) := merge_context_work f s1 rest
      (m ++ m2, s2)
    else
      merge_context_work f s
        (((getNode s nid).childrenIds.map (fun c => (c, dl - 1))) ++ rest)

/-- Remap one context counter for a collapsed handle:
`av_counts[ca_key][new] += av_counts[ca_key][old]` followed by deletion of
the old entry (the counter returns zero for missing keys and deletes
silently). -/
def apply_ctx_update (d : NodeData) (oldh newh : ℕ) : NodeData :=
  let oldCount := (((d.ctxCounts.find? (fun p => p.1 == oldh)).map (fun p => p.2)).getD 0)
  { d with ctxCounts := (addCount d.ctxCounts newh oldCount).filter (fun p => ! (p.1 == oldh)) }

/-- Apply the collapse mapping to every node of the tree; a node without a
`CTX` entry is the Python KeyError of the plain dict access. -/
def apply_updates_go : List ℕ → List (ℕ × ℕ) → TreeState → (Except Err Unit) × TreeState
  | [], _, s => (.ok (), s)
  | nid :: rest, mapping, s =>
    if ! (getNode s nid).hasCtx then (.error .keyError, s)
    else
      apply_updates_go rest mapping
        (setNode s nid (mapping.foldl (fun d p => apply_ctx_update d p.1 p.2) (getNode s nid)))

/-- Translated from `ContextualCobwebNode.merge_contexts` (source lines 893
to 905), invoked on the root by the driver: collect the collapse mapping
down to `merge_depth` and, when it is nonempty, rewrite the context
counters across the whole tree. -/
def merge_contexts (s : TreeState) : (Except Err Unit) × TreeState :=
  let (mapping, s1) :=
    merge_context_work ((s.nodes.length + 2) * (merge_depth + 2)) s [(s.root, merge_depth)]
  if mapping = [] then (.ok (), s1)
  else apply_updates_go (tree_iterator_go (s1.nodes.length + 1) s1 s1.root) mapping s1

/-- Translated from `ContextualCobwebTree.__cu_for_window`: the sum over
the window of the category utility of inserting each instance as a new
child of the leaf its handle points to. -/
def cu_for_window (s : TreeState) : ℚ :=
  (s.window.map (fun p => cu_for_new_child s (getHandle s p.2).inst p.1)).sum

/-- Translated from `ContextualCobwebTree.__update_if_better` (source lines
220 to 234): move the handle to the new path, keep the move when the total
window category utility strictly increased, otherwise restore the saved
path and leaf. -/
def update_if_better (s : TreeState) (newPath : List ℕ) (h : ℕ) : Bool × TreeState :=
  let old_path := (getHandle s h).tenative_path
  let old_inst := (getHandle s h).inst
  let old_cu := cu_for_window s
  let s1 := set_path s h newPath
  let new_cu := cu_for_window s1
  if old_cu < new_cu then (true, s1)
  else (false, set_path_from_set s1 h old_path old_inst)

/-- The stabilization sweep of `contextual_cobweb` (source lines 163 to
194), fuelled: cycle over the window positions; at position zero record the
tuple of tentative leaves for loop detection and run the recording descent,
elsewhere run the plain descent; before a repeat is seen accept any path
change, afterwards accept only changes that raise the window category
utility; stop once a full cycle passes the last changed position without a
change, returning the recorded actions. -/
def sweep : ℕ → ℕ → TreeState → ℕ → ℕ → Bool → List (List ℕ) →
    List ActionRec → List ActionRec → (Except Err (List ActionRec)) × TreeState
  | 0, _, s, _, _, _, _, _, _ => (.error .fuelOut, s)
  | f + 1, iF, s, idx, lastChanged, looped, records, actions, newActns =>
    let n := s.window.length
    let p := s.window.getD idx (emptyInst, 0)
    let stepRes : (Except Err (List ℕ × List ActionRec)) × TreeState :=
      if idx == 0 then cobweb_path_and_restructurings iF s p.1
      else
        match cobweb_path iF s p.1 with
        | (.error e, s1) => (.error e, s1)
        | (.ok path, s1) => (.ok (path, newActns), s1)
    match stepRes with
    | (.error e, s1) => (.error e, s1)
    | (.ok (path, nacts1), s1) =>
      let newRecord := s.window.map (fun q => (getHandle s q.2).inst)
      let looped1 := if idx == 0 then looped || records.contains newRecord else looped
      let records1 := if idx == 0 then newRecord :: records else records
      let ten := (getHandle s1 p.2).tenative_path
      if looped1 then
        if ! path_eq ten path then
          match update_if_better s1 path p.2 with
          | (true, s2) =>
              sweep f iF s2 ((idx + 1) % n) idx looped1 records1
                (if idx == 0 then nacts1 else actions) nacts1
          | (false, s2) =>
              if lastChanged == idx then (.ok actions, s2)
              else sweep f iF s2 ((idx + 1) % n) lastChanged looped1 records1 actions nacts1
        else
          if lastChanged == idx then (.ok actions, s1)
          else sweep f iF s1 ((idx + 1) % n) lastChanged looped1 records1 actions nacts1
      else
        if ! path_eq ten path then
          sweep f iF (set_path s1 p.2 path) ((idx + 1) % n) idx looped1 records1 nacts1 nacts1
        else if lastChanged == idx then (.ok nacts1, s1)
        else sweep f iF s1 ((idx + 1) % n) lastChanged looped1 records1 nacts1 nacts1

/-- Translated from `ContextualCobwebTree.__create_instance` (source lines
211 to 218): give the incoming instance the window handles as context, run
the plain descent to build its handle, append the new handle to the context
of every windowed instance, and push the pair onto the window. -/
def create_instance (iF : ℕ) (s : TreeState) (inst : Inst) : (Except Err Unit) × TreeState :=
  let inst1 := { inst with ctx := some (s.window.map Prod.snd) }
  match cobweb_path iF s inst1 with
  | (.error e, s1) => (.error e, s1)
  | (.ok path, s1) =>
    let (h, s2) := new_handle s1 path
    (.ok (),
     { s2 with window :=
         (s2.window.map (fun p => ({ p.1 with ctx := some (p.1.ctx.getD [] ++ [h]) }, p.2)))
           ++ [(inst1, h)] })

/-- The while-window loop of `contextual_cobweb` (source lines 150 to 208),
fuelled: run the periodic compaction, stabilize the window, commit (or in
no-learning mode pop) the left-most pair, and admit the next instance when
input remains. -/
def outer_loop : ℕ → ℕ → TreeState → List Inst → ℕ → Bool → ℕ → List ℕ →
    (Except Err (List ℕ)) × TreeState
  | 0, _, s, _, _, _, _, _ => (.error .fuelOut, s)
  | oF + 1, iF, s, instances, cs, learning, nextInit, fixed =>
    match s.window with
    | [] => (.ok fixed, s)
    | _ :: _ =>
      match (if nextInit % 200 == 0 then merge_contexts s else (.ok (), s)) with
      | (.error e, s0) => (.error e, s0)
      | (.ok _, s0) =>
        match sweep iF iF s0 0 (s0.window.length - 1) false [] [] [] with
        | (.error e, s1) => (.error e, s1)
        | (.ok actions, s1) =>
          match s1.window with
          | [] => (.error .indexError, s1)
          | (inst, h) :: rest =>
            let s2 := { s1 with window := rest }
            let nextInit1 := nextInit + 1
            if learning then
              match add_by_path s2 inst h actions with
              | (.error e, s3) => (.error e, s3)
              | (.ok leaf, s3) =>
                match (if nextInit1 < instances.length then
                    create_instance iF s3 (instances.getD nextInit1 emptyInst)
                  else (.ok (), s3)) with
                | (.error e, s4) => (.error e, s4)
                | (.ok _, s4) =>
                    outer_loop oF iF s4 instances cs learning nextInit1 (fixed ++ [leaf])
            else
              match (if nextInit1 < instances.length then
                  create_instance iF s2 (instances.getD nextInit1 emptyInst)
                else (.ok (), s2)) with
              | (.error e, s4) => (.error e, s4)
              | (.ok _, s4) =>
                  outer_loop oF iF s4 instances cs learning nextInit1 (fixed ++ [h])

/-- Translated from `ContextualCobwebTree.initial_path` (source lines 248
to 257): the initial guess for an instance without context is the plain
descent. -/
def initial_path (f : ℕ) (s : TreeState) (i : Inst) :
    (Except Err (List ℕ)) × TreeState :=
  cobweb_path f s i

/-- The initialization of `contextual_cobweb` (source lines 142 to 143):
build a context handle from `initial_path` for each of the first
`context_size + 1` instances, in order. -/
def init_contexts (iF : ℕ) : TreeState → List Inst → (Except Err (List ℕ)) × TreeState
  | s, [] => (.ok [], s)
  | s, i :: rest =>
    match initial_path iF s i with
    | (.error e, s1) => (.error e, s1)
    | (.ok path, s1) =>
      let (h, s2) := new_handle s1 path
      match init_contexts iF s2 rest with
      | (.error e, s3) => (.error e, s3)
      | (.ok hs, s3) => (.ok (h :: hs), s3)

/-- Translated from `ContextualCobwebTree.contextual_cobweb` (source lines
124 to 209): assert the symmetric window, seed the window with the first
`context_size + 1` instances wired to each others handles, and run the
commit loop.  In learning mode the returned ids are leaf nodes, otherwise
they are the context handles. -/
def contextual_cobweb (oF iF : ℕ) (s : TreeState) (instances : List Inst)
    (cs : ℕ) (ck : String) (learning : Bool) : (Except Err (List ℕ)) × TreeState :=
  if ck ≠ "symmetric_window" then (.error .assertionFailed, s)
  else
    let firstInsts := instances.take (cs + 1)
    match init_contexts iF s firstInsts with
    | (.error e, s1) => (.error e, s1)
    | (.ok hids, s1) =>
      let win := firstInsts.enum.map (fun p =>
        ({ p.2 with ctx := some (hids.take p.1 ++ hids.drop (p.1 + 1)) }, hids.getD p.1 0))
      outer_loop oF iF { s1 with window := win } instances cs learning (cs + 1) []

/-- Modelled from the spec: `_sanity_check_instance` of the base tree
validates attribute values and raises for malformed ones; driver instances
are well-formed by construction, so the check passes. -/
def sanity_check_instance (_i : Inst) : Bool := true

/-- Translated from `ContextualCobwebTree.contextual_ifit` (source lines 97
to 122): the entry assert compares the context key against the two
unsupported names with `or`, a tautology that never fires; then every
instance is sanity checked and `contextual_cobweb` runs with learning
enabled. -/
def contextual_ifit (oF iF : ℕ) (s : TreeState) (instances : List Inst)
    (cs : ℕ) (ck : String) : (Except Err (List ℕ)) × TreeState :=
  if ¬ (ck ≠ "past_window" ∨ ck ≠ "future_window") then (.error .assertionFailed, s)
  else if ! instances.all (fun i => sanity_check_instance i) then (.error .assertionFailed, s)
  else contextual_cobweb oF iF s instances cs ck true

/-- Translated from `ContextualCobwebNode.predict` (source lines 1263 to
1272): raise for the context key; for every other attribute the override
calls the base-class `predict` but does not return its result, so the
Python call yields `None` whatever the node holds. -/
def predict (_s : TreeState) (_nid : ℕ) (attr : String) : Except Err (Option String) :=
  if attr = ca_key then .error .notImplemented else .ok none

/-- Modelled from the spec: the base-class Cobweb3 `predict` returns the
most likely value of the attribute at the node — the value the override
computes and then discards. -/
def predict_base (d : NodeData) (attr : String) : Option String :=
  match d.nomCounts.find? (fun p => p.1 == attr) with
  | none => none
  | some p =>
    match sortDesc (p.2.map (fun q => ((q.2 : ℚ), 0, q.1))) with
    | [] => none
    | x :: _ => some x.2.2

/-- Translated from `ContextualCobwebTree.cobweb` (source lines 456 to
457): the inherited single-instance entry point raises
NotImplementedError. -/
def cobweb (s : TreeState) (_i : Inst) : (Except Err ℕ) × TreeState :=
  (.error .notImplemented, s)

/-- Translated from `ContextualCobwebTree.infer_from_context` (source lines
459 to 491): assert more than one entry, locate and remove the missing
slot, categorize the rest without learning, route a synthetic instance
holding the neighbor handles through the plain descent, and return the
`predict` of the terminating node for the `Anchor` attribute. -/
def infer_from_context (oF iF : ℕ) (s : TreeState) (instances : List (Option Inst))
    (cs : ℕ) (ck : String) : (Except Err (Option String)) × TreeState :=
  if instances.length ≤ 1 then (.error .assertionFailed, s)
  else
    match instances.findIdx? (fun o => o.isNone) with
    | none => (.error .valueError, s)
    | some pi =>
      let rest := instances.eraseIdx pi
      if ! rest.all (fun o => o.isSome) then (.error .typeError, s)
      else
        match contextual_cobweb oF iF s (rest.filterMap id) cs ck false with
        | (.error e, s1) => (.error e, s1)
        | (.ok contexts, s1) =>
          let newInst : Inst := ⟨[], some ((contexts.drop (pi - cs)).take (pi + cs - (pi - cs)))⟩
          match cobweb_path iF s1 newInst with
          | (.error e, s2) => (.error e, s2)
          | (.ok path, s2) =>
            match path.getLast? with
            | none => (.error .indexError, s2)
            | some category => (predict s2 category "Anchor", s2)

/-- The parent-child relation of a tree state, read off the children
lists. -/
def parent_child (s : TreeState) (a b : ℕ) : Prop :=
  b ∈ (getNode s a).childrenIds

/-- The configuration claim C3 predicts for identical inputs: the root is a
single leaf holding every instance and no fringe split happened. -/
def single_leaf_no_fringe (s : TreeState) (n : ℕ) : Prop :=
  (getNode s s.root).childrenIds = [] ∧ (getNode s s.root).count = n ∧
    s.fringe_splits = 0

/-- The property claim C5 states for `get_best_operation`: only requested
operations are scored, each with its fixed priority; merge is entertained
only with more than two children and a second best child, split only when
the best child has children; and the result is the score and name of the
entertained operation with the highest score, ties broken by the priority
order best, new, split, merge. -/
def best_op_spec (s : TreeState) (nid : ℕ) (i : Inst) (best1 : ℕ)
    (best2 : Option ℕ) (best1_cu : ℚ) (pOps : List String) : Prop :=
  (∀ c p nm, (c, p, nm) ∈ build_operations s nid i best1 best2 best1_cu pOps → nm ∈ pOps) ∧
  (∀ c p nm, (c, p, nm) ∈ build_operations s nid i best1 best2 best1_cu pOps →
    (nm = "best" → p = 3) ∧ (nm = "new" → p = 2) ∧ (nm = "split" → p = 1) ∧
      (nm = "merge" → p = 0)) ∧
  ((∃ c, (c, 0, "merge") ∈ build_operations s nid i best1 best2 best1_cu pOps) ↔
    ("merge" ∈ pOps ∧ 2 < (getNode s nid).childrenIds.length ∧ best2.isSome = true)) ∧
  ((∃ c, (c, 1, "split") ∈ build_operations s nid i best1 best2 best1_cu pOps) ↔
    ("split" ∈ pOps ∧ 0 < (getNode s best1).childrenIds.length)) ∧
  (∃ x ∈ build_operations s nid i best1 best2 best1_cu pOps,
    get_best_operation s nid i best1 best2 best1_cu pOps = .ok (x.1, x.2.2) ∧
      ∀ y ∈ build_operations s nid i best1 best2 best1_cu pOps,
        y.1 < x.1 ∨ (y.1 = x.1 ∧ y.2.1 ≤ x.2.1))

end CC

instance instDecEqExcept {ε α : Type} [DecidableEq ε] [DecidableEq α] :
    DecidableEq (Except ε α)
  | .error e1, .error e2 =>
    match decEq e1 e2 with
    | isTrue h => isTrue (by rw [h])
    | isFalse h => isFalse (fun hh => h (Except.error.inj hh))
  | .error _, .ok _ => isFalse (fun hh => Except.noConfusion hh)
  | .ok _, .error _ => isFalse (fun hh => Except.noConfusion hh)
  | .ok a1, .ok a2 =>
    match decEq a1 a2 with
    | isTrue h => isTrue (by rw [h])
    | isFalse h => isFalse (fun hh => h (Except.ok.inj hh))

namespace Fixtures

open CC

/-- A plain nominal instance used by the concrete runs. -/
def cInst : Inst := ⟨[("a", "1")], none⟩

/-- The node of the C2 counterexample: a fresh leaf built from exactly one
instance carrying one context handle. -/
def c2Node : EM.EMNode := ⟨1, [("a", ⟨none, [("1", 1)]⟩)], some [(7, 1)]⟩

/-- The instance of the C2 counterexample, the very instance the node was
built from. -/
def c2Inst : EM.EMInst := ⟨[("a", EM.PVal.nom "1")], some [7]⟩

/-- A state with a root over three leaf children, exercising
`two_best_children` and `get_best_operation`. -/
def s3 : TreeState :=
  ⟨[⟨3, [("a", [("1", 2), ("2", 1)])], false, [], 0, [1, 2, 3], none, [1, 2, 3], none⟩,
    ⟨1, [("a", [("1", 1)])], false, [], 0, [], some 0, [1], none⟩,
    ⟨1, [("a", [("1", 1)])], false, [], 0, [], some 0, [2], none⟩,
    ⟨1, [("a", [("2", 1)])], false, [], 0, [], some 0, [3], none⟩],
   [], 0, 1, [], 0⟩

/-- A state whose root has exactly two leaf children, exercising the skip
condition of the restructuring loop. -/
def s2 : TreeState :=
  ⟨[⟨2, [("a", [("1", 1), ("2", 1)])], false, [], 0, [1, 2], none, [1, 2], none⟩,
    ⟨1, [("a", [("1", 1)])], false, [], 0, [], some 0, [1], none⟩,
    ⟨1, [("a", [("2", 1)])], false, [], 0, [], some 0, [2], none⟩],
   [], 0, 1, [], 0⟩

/-- A leaf whose `Anchor` distribution is dominated by one value, showing
the prediction the source computes and then discards. -/
def anchorLeaf : NodeData :=
  ⟨3, [("Anchor", [("y", 2), ("x", 1)])], false, [], 0, [], none, [], none⟩

end Fixtures

/-! Helper lemmas shared by the claim theorems. -/

theorem keyGe_refl {γ : Type} (x : ℚ × ℕ × γ) : keyGe x x :=
  Or.inr ⟨rfl, le_refl _⟩

theorem sortDesc_head {γ : Type} {l : List (ℚ × ℕ × γ)} {x : ℚ × ℕ × γ}
    {t : List (ℚ × ℕ × γ)} (h : sortDesc l = x :: t) :
    x ∈ l ∧ ∀ y ∈ l, keyGe x y := by
  have hperm := List.perm_insertionSort (@keyGe γ) l
  have hs := List.sorted_insertionSort (@keyGe γ) l
  rw [sortDesc] at h
  rw [h] at hperm hs
  refine ⟨hperm.mem_iff.1 (List.mem_cons_self x t), ?_⟩
  intro y hy
  rcases List.mem_cons.1 (hperm.mem_iff.2 hy) with hxy | hmem
  · rw [hxy]
    exact keyGe_refl x
  · exact List.rel_of_sorted_cons hs y hmem

theorem set_eq_mem {α : Type} [BEq α] [LawfulBEq α] {l₁ l₂ : List α}
    (h : EM.set_eq l₁ l₂ = true) : ∀ a, a ∈ l₁ ↔ a ∈ l₂ := by
  rw [EM.set_eq, Bool.and_eq_true, List.all_eq_true, List.all_eq_true] at h
  rcases h with ⟨h₁, h₂⟩
  intro a
  constructor
  · intro ha
    have := h₁ a ha
    simpa using this
  · intro ha
    have := h₂ a ha
    simpa using this

theorem all_eq_of_set_eq {α : Type} [BEq α] [LawfulBEq α] {l₁ l₂ : List α}
    (h : EM.set_eq l₁ l₂ = true) (f : α → Bool) : l₁.all f = l₂.all f := by
  have hm := set_eq_mem h
  rw [Bool.eq_iff_iff, List.all_eq_true, List.all_eq_true]
  constructor
  · intro hall a ha
    exact hall a ((hm a).2 ha)
  · intro hall a ha
    exact hall a ((hm a).1 ha)

theorem two_best_children_spec {s : CC.TreeState} {nid : ℕ} {i : CC.Inst}
    {cu : ℚ} {b1 : ℕ} {b2 : Option ℕ}
    (h : CC.two_best_children s nid i = .ok (cu, b1, b2)) :
    b1 ∈ (CC.getNode s nid).childrenIds ∧
      ∀ c ∈ (CC.getNode s nid).childrenIds,
        keyGe (CC.child_key s i b1) (CC.child_key s i c) := by
  simp only [CC.two_best_children] at h
  split at h
  · exact absurd h (by simp)
  · rename_i c hch
    simp only [Except.ok.injEq, Prod.mk.injEq] at h
    obtain ⟨-, hb1, -⟩ := h
    subst hb1
    rw [hch]
    exact ⟨List.mem_singleton.mpr rfl, by
      intro c' hc'
      rw [List.mem_singleton.mp hc']
      exact keyGe_refl _⟩
  · rename_i c1 c2 rest hch
    split at h
    · rename_i x y t hsort
      simp only [Except.ok.injEq, Prod.mk.injEq] at h
      obtain ⟨-, hb1, -⟩ := h
      obtain ⟨hxmem, hge⟩ := sortDesc_head hsort
      obtain ⟨c0, hc0mem, hc0⟩ := List.mem_map.mp hxmem
      have hb1c0 : b1 = c0 := by
        rw [← hb1, ← hc0]
        rfl
      rw [hch]
      constructor
      · rw [hb1c0]
        exact hc0mem
      · intro c hc
        rw [hb1c0, hc0]
        exact hge _ (List.mem_map_of_mem _ hc)
    · exact absurd h (by simp)

theorem cobweb_path_go_state (f : ℕ) :
    ∀ (s : CC.TreeState) (i : CC.Inst) (cur : ℕ) (acc : List ℕ),
      (CC.cobweb_path_go f s i cur acc).2 = s := by
  induction f with
  | zero => intro s i cur acc; rfl
  | succ f ih =>
    intro s i cur acc
    simp only [CC.cobweb_path_go]
    split
    · rfl
    · split
      · rfl
      · split
        · rfl
        · split
          · exact ih s i _ _
          · split
            · rfl
            · rfl

theorem cobweb_path_go_chain (f : ℕ) :
    ∀ (s : CC.TreeState) (i : CC.Inst) (cur : ℕ) (acc p : List ℕ)
      (s1 : CC.TreeState),
      CC.cobweb_path_go f s i cur acc = (.ok p, s1) →
      ∃ t, p = acc ++ cur :: t ∧ List.Chain (CC.parent_child s) cur t := by
  induction f with
  | zero =>
    intro s i cur acc p s1 h
    exact absurd h (by simp [CC.cobweb_path_go])
  | succ f ih =>
    intro s i cur acc p s1 h
    simp only [CC.cobweb_path_go] at h
    split at h
    · simp only [Prod.mk.injEq, Except.ok.injEq] at h
      exact ⟨[], h.1.symm, List.Chain.nil⟩
    · split at h
      · exact absurd h (by simp)
      · rename_i tbr b1cu b1 b2 hb
        split at h
        · exact absurd h (by simp)
        · split at h
          · obtain ⟨t', hp, hch⟩ := ih s i _ (acc ++ [cur]) p s1 h
            refine ⟨b1 :: t', by rw [hp]; simp, ?_⟩
            exact List.Chain.cons (two_best_children_spec hb).1 hch
          · split at h
            · simp only [Prod.mk.injEq, Except.ok.injEq] at h
              exact ⟨[], h.1.symm, List.Chain.nil⟩
            · exact absurd h (by simp)

/-! Claim theorems. -/

/-- C4: for every instance, `cobweb_path` returns the list of nodes visited
from the root, descending only into a best child and stopping on `new` or
at a leaf; hence the first element of the returned list is the root and
every consecutive pair is parent and child. -/
theorem C4_cobweb_path_root_chain :
    ∀ (f : ℕ) (s : CC.TreeState) (i : CC.Inst) (p : List ℕ) (s1 : CC.TreeState),
      CC.cobweb_path f s i = (.ok p, s1) →
      p.head? = some s.root ∧ List.Chain' (CC.parent_child s) p := by
  intro f s i p s1 h
  obtain ⟨t, hp, hch⟩ := cobweb_path_go_chain f s i s.root [] p s1 h
  subst hp
  exact ⟨rfl, hch⟩

theorem C4_witness :
    ([0] : List ℕ).head? = some CC.init.root ∧
      List.Chain' (CC.parent_child CC.init) [0] :=
  C4_cobweb_path_root_chain 5 CC.init Fixtures.cInst [0] CC.init (by decide)

/-- C8: `cobweb_path` leaves the tree state unchanged and running it again
on the unchanged state yields the same path, and `two_best_children` picks
as best child a member of the children list maximal in the deterministic
(relative category utility, child count) descending order — no
randomness. -/
theorem C8_cobweb_path_pure_deterministic :
    (∀ (f : ℕ) (s : CC.TreeState) (i : CC.Inst) (p : List ℕ) (s1 : CC.TreeState),
        CC.cobweb_path f s i = (.ok p, s1) →
        s1 = s ∧ CC.cobweb_path f s1 i = (.ok p, s1)) ∧
    (∀ (s : CC.TreeState) (nid : ℕ) (i : CC.Inst) (cu : ℚ) (b1 : ℕ) (b2 : Option ℕ),
        CC.two_best_children s nid i = .ok (cu, b1, b2) →
        b1 ∈ (CC.getNode s nid).childrenIds ∧
          ∀ c ∈ (CC.getNode s nid).childrenIds,
            keyGe (CC.child_key s i b1) (CC.child_key s i c)) := by
  constructor
  · intro f s i p s1 h
    have hst := cobweb_path_go_state f s i s.root []
    rw [CC.cobweb_path] at h
    rw [h] at hst
    subst hst
    exact ⟨rfl, h⟩
  · intro s nid i cu b1 b2 h
    exact two_best_children_spec h

theorem C8_witness :
    CC.init = CC.init ∧
      CC.cobweb_path 5 CC.init Fixtures.cInst = (.ok [0], CC.init) :=
  C8_cobweb_path_pure_deterministic.1 5 CC.init Fixtures.cInst [0] CC.init (by decide)

/-- C9: for every node whose `context_size` is zero the contextual
contribution is zero and the division by the squared context size is
guarded: it only happens for nonzero context size, where the divisor is
nonzero, so `expected_correct_guesses` never divides by zero on the
contextual attribute. -/
theorem C9_zero_context_guard :
    ∀ (s : CC.TreeState) (d : CC.NodeData) (ctxt : List (ℕ × ℕ)),
      (d.contextSize = 0 → CC.expected_contextual s d ctxt = 0) ∧
      (d.contextSize ≠ 0 →
        CC.expected_contextual s d ctxt =
          CC.exp_ctxt_helper (CC.depth_cap + 2) s s.root 0 0 ctxt /
            ((d.contextSize : ℚ) * (d.contextSize : ℚ)) ∧
        ((d.contextSize : ℚ) * (d.contextSize : ℚ)) ≠ 0) := by
  intro s d ctxt
  constructor
  · intro h
    rw [CC.expected_contextual, if_pos h]
  · intro h
    refine ⟨by rw [CC.expected_contextual, if_neg h], ?_⟩
    have hc : (d.contextSize : ℚ) ≠ 0 := Nat.cast_ne_zero.mpr h
    exact mul_ne_zero hc hc

theorem C9_witness :
    CC.emptyNode.contextSize = 0 ∧ CC.expected_contextual CC.init CC.emptyNode [] = 0 :=
  ⟨rfl, (C9_zero_context_guard CC.init CC.emptyNode []).1 rfl⟩

/-- C10: for every state and instance, the inherited single-instance entry
point `cobweb` raises NotImplementedError and leaves the tree unchanged,
so instances enter only through the contextual entry points. -/
theorem C10_cobweb_not_implemented :
    ∀ (s : CC.TreeState) (i : CC.Inst),
      CC.cobweb s i = (.error .notImplemented, s) := by
  intro s i
  rfl

/-- C7: every `contextual_ifit` call with context key `past_window` or
`future_window` is rejected by an assertion before any instance is added
and the returned state is the unchanged input state (the entry assert of
`contextual_ifit` is a tautology; the assert at the top of
`contextual_cobweb` fires before the window is built). -/
theorem C7_rejects_asymmetric_windows :
    ∀ (oF iF : ℕ) (s : CC.TreeState) (instances : List CC.Inst) (cs : ℕ) (ck : String),
      ck = "past_window" ∨ ck = "future_window" →
      CC.contextual_ifit oF iF s instances cs ck = (.error .assertionFailed, s) := by
  intro oF iF s instances cs ck hck
  have hall : instances.all (fun i => CC.sanity_check_instance i) = true := by
    rw [List.all_eq_true]
    intro a ha
    rfl
  rcases hck with rfl | rfl <;>
    simp [CC.contextual_ifit, CC.contextual_cobweb, hall]

theorem C7_witness :
    CC.contextual_ifit 3 3 CC.init [Fixtures.cInst] 4 "past_window" =
      (.error .assertionFailed, CC.init) :=
  C7_rejects_asymmetric_windows 3 3 CC.init [Fixtures.cInst] 4 "past_window" (Or.inl rfl)

theorem mem_ite_nil {α : Type} {g : Prop} [Decidable g] {x a : α}
    (h : a ∈ (if g then [x] else [])) : g ∧ a = x := by
  by_cases hg : g
  · rw [if_pos hg] at h
    exact ⟨hg, List.mem_singleton.mp h⟩
  · rw [if_neg hg] at h
    exact absurd h (List.not_mem_nil a)

/-- C5: `get_best_operation` scores only the requested operations, with the
fixed priorities best 3, new 2, split 1, merge 0; merge is entertained only
with more than two children and a second best child, split only when the
best child has children; and the returned pair is the score and name of the
highest-scoring entertained operation, ties broken by priority. -/
theorem C5_get_best_operation_spec :
    ∀ (s : CC.TreeState) (nid : ℕ) (i : CC.Inst) (best1 : ℕ) (best2 : Option ℕ)
      (best1_cu : ℚ) (pOps : List String),
      CC.build_operations s nid i best1 best2 best1_cu pOps ≠ [] →
      CC.best_op_spec s nid i best1 best2 best1_cu pOps := by
  intro s nid i best1 best2 best1_cu pOps hne
  refine ⟨?_, ?_, ?_, ?_, ?_⟩
  · intro c p nm hmem
    rcases List.mem_append.mp hmem with hm | hD
    · rcases List.mem_append.mp hm with hm2 | hC
      · rcases List.mem_append.mp hm2 with hA | hB
        · obtain ⟨hg, heq⟩ := mem_ite_nil hA
          simp only [Prod.mk.injEq] at heq
          rw [heq.2.2]
          simpa using hg
        · obtain ⟨hg, heq⟩ := mem_ite_nil hB
          simp only [Prod.mk.injEq] at heq
          rw [heq.2.2]
          simpa using hg
      · obtain ⟨hg, heq⟩ := mem_ite_nil hC
        simp only [Bool.and_eq_true] at hg
        simp only [Prod.mk.injEq] at heq
        rw [heq.2.2]
        simpa using hg.1.1
    · obtain ⟨hg, heq⟩ := mem_ite_nil hD
      simp only [Bool.and_eq_true] at hg
      simp only [Prod.mk.injEq] at heq
      rw [heq.2.2]
      simpa using hg.1
  · intro c p nm hmem
    rcases List.mem_append.mp hmem with hm | hD
    · rcases List.mem_append.mp hm with hm2 | hC
      · rcases List.mem_append.mp hm2 with hA | hB
        · obtain ⟨-, heq⟩ := mem_ite_nil hA
          simp only [Prod.mk.injEq] at heq
          rw [heq.2.1, heq.2.2]
          refine ⟨?_, ?_, ?_, ?_⟩ <;> intro hh <;> first | rfl | exact absurd hh (by decide)
        · obtain ⟨-, heq⟩ := mem_ite_nil hB
          simp only [Prod.mk.injEq] at heq
          rw [heq.2.1, heq.2.2]
          refine ⟨?_, ?_, ?_, ?_⟩ <;> intro hh <;> first | rfl | exact absurd hh (by decide)
      · obtain ⟨-, heq⟩ := mem_ite_nil hC
        simp only [Prod.mk.injEq] at heq
        rw [heq.2.1, heq.2.2]
        refine ⟨?_, ?_, ?_, ?_⟩ <;> intro hh <;> first | rfl | exact absurd hh (by decide)
    · obtain ⟨-, heq⟩ := mem_ite_nil hD
      simp only [Prod.mk.injEq] at heq
      rw [heq.2.1, heq.2.2]
      refine ⟨?_, ?_, ?_, ?_⟩ <;> intro hh <;> first | rfl | exact absurd hh (by decide)
  · constructor
    · rintro ⟨c, hc⟩
      rcases List.mem_append.mp hc with hm | hD
      · rcases List.mem_append.mp hm with hm2 | hC
        · rcases List.mem_append.mp hm2 with hA | hB
          · obtain ⟨-, heq⟩ := mem_ite_nil hA
            simp at heq
          · obtain ⟨-, heq⟩ := mem_ite_nil hB
            simp at heq
        · obtain ⟨hg, -⟩ := mem_ite_nil hC
          simp only [Bool.and_eq_true] at hg
          refine ⟨by simpa using hg.1.1, by simpa using hg.1.2, hg.2⟩
      · obtain ⟨-, heq⟩ := mem_ite_nil hD
        simp at heq
    · rintro ⟨hmem, hlen, hsome⟩
      have hg : (pOps.contains "merge" &&
          decide (2 < (CC.getNode s nid).childrenIds.length) && best2.isSome) = true := by
        rw [Bool.and_eq_true, Bool.and_eq_true]
        exact ⟨⟨by simpa using hmem, decide_eq_true hlen⟩, hsome⟩
      refine ⟨CC.cu_for_merge s nid best1 (best2.getD 0) i, ?_⟩
      refine List.mem_append.mpr (Or.inl (List.mem_append.mpr (Or.inr ?_)))
      rw [if_pos hg]
      exact List.mem_singleton.mpr rfl
  · constructor
    · rintro ⟨c, hc⟩
      rcases List.mem_append.mp hc with hm | hD
      · rcases List.mem_append.mp hm with hm2 | hC
        · rcases List.mem_append.mp hm2 with hA | hB
          · obtain ⟨-, heq⟩ := mem_ite_nil hA
            simp at heq
          · obtain ⟨-, heq⟩ := mem_ite_nil hB
            simp at heq
        · obtain ⟨-, heq⟩ := mem_ite_nil hC
          simp at heq
      · obtain ⟨hg, -⟩ := mem_ite_nil hD
        simp only [Bool.and_eq_true] at hg
        refine ⟨by simpa using hg.1, by simpa using hg.2⟩
    · rintro ⟨hmem, hlen⟩
      have hg : (pOps.contains "split" &&
          decide (0 < (CC.getNode s best1).childrenIds.length)) = true := by
        rw [Bool.and_eq_true]
        exact ⟨by simpa using hmem, decide_eq_true hlen⟩
      refine ⟨CC.cu_for_split s nid best1, ?_⟩
      refine List.mem_append.mpr (Or.inr ?_)
      rw [if_pos hg]
      exact List.mem_singleton.mpr rfl
  · cases hsort : sortDesc (CC.build_operations s nid i best1 best2 best1_cu pOps) with
    | nil =>
      have hlen := (List.perm_insertionSort (@keyGe String)
        (CC.build_operations s nid i best1 best2 best1_cu pOps)).length_eq
      rw [show List.insertionSort keyGe
            (CC.build_operations s nid i best1 best2 best1_cu pOps) =
          sortDesc (CC.build_operations s nid i best1 best2 best1_cu pOps) from rfl,
        hsort] at hlen
      exact absurd (List.length_eq_zero.mp hlen.symm) hne
    | cons x t =>
      obtain ⟨hxmem, hge⟩ := sortDesc_head hsort
      refine ⟨x, hxmem, ?_, ?_⟩
      · simp only [CC.get_best_operation, hsort]
      · intro y hy
        rcases hge y hy with h | ⟨h1, h2⟩
        · exact Or.inl h
        · exact Or.inr ⟨h1.symm, h2⟩

theorem C5_witness :
    CC.build_operations Fixtures.s3 0 Fixtures.cInst 1 (some 2) 0
        ["best", "new", "merge", "split"] ≠ [] ∧
      CC.best_op_spec Fixtures.s3 0 Fixtures.cInst 1 (some 2) 0
        ["best", "new", "merge", "split"] :=
  ⟨by decide,
   C5_get_best_operation_spec Fixtures.s3 0 Fixtures.cInst 1 (some 2) 0
     ["best", "new", "merge", "split"] (by decide)⟩

/-- C6: `increment_and_restructure` increments the counts and then iterates
the recorded actions deepest to shallowest; a level is skipped when the
current node has at most two children and the best child is a leaf;
otherwise `get_best_operation` is evaluated restricted to split and merge
with an empty instance, nothing is performed unless the winner strictly
exceeds the recorded score, and the winning merge or split is applied with
its window rewrite. -/
theorem C6_increment_and_restructure_spec :
    (∀ (s : CC.TreeState) (i : CC.Inst) (w : ℕ) (actions : List CC.ActionRec),
        CC.increment_and_restructure s i w actions =
          CC.restructure_go actions.reverse
            (CC.increment_all_counts (s.nodes.length + 1) s w i)) ∧
    (∀ (s : CC.TreeState) (r : CC.ActionRec),
        (CC.getNode s r.current).childrenIds.length ≤ 2 →
        (CC.getNode s r.best1).childrenIds.length = 0 →
        CC.restructure_step s r = (.ok (), s)) ∧
    (∀ (s : CC.TreeState) (r : CC.ActionRec) (q : ℚ) (nm : String),
        ¬ ((CC.getNode s r.current).childrenIds.length ≤ 2 ∧
            (CC.getNode s r.best1).childrenIds.length = 0) →
        CC.get_best_operation s r.current CC.emptyInst r.best1 r.best2 r.best1_cu
            ["split", "merge"] = .ok (q, nm) →
        q ≤ r.action_cu →
        CC.restructure_step s r = (.ok (), s)) ∧
    (∀ (s : CC.TreeState) (r : CC.ActionRec) (q : ℚ) (b2 : ℕ),
        ¬ ((CC.getNode s r.current).childrenIds.length ≤ 2 ∧
            (CC.getNode s r.best1).childrenIds.length = 0) →
        CC.get_best_operation s r.current CC.emptyInst r.best1 r.best2 r.best1_cu
            ["split", "merge"] = .ok (q, "merge") →
        r.action_cu < q →
        r.best2 = some b2 →
        2 < (CC.getNode s r.current).childrenIds.length →
        CC.restructure_step s r =
          CC.merge_update (CC.merge_nodes s r.current r.best1 b2) r.best1 b2) ∧
    (∀ (s : CC.TreeState) (r : CC.ActionRec) (q : ℚ),
        ¬ ((CC.getNode s r.current).childrenIds.length ≤ 2 ∧
            (CC.getNode s r.best1).childrenIds.length = 0) →
        CC.get_best_operation s r.current CC.emptyInst r.best1 r.best2 r.best1_cu
            ["split", "merge"] = .ok (q, "split") →
        r.action_cu < q →
        1 < (CC.getNode s r.best1).childrenIds.length →
        CC.restructure_step s r =
          CC.split_update (CC.split_node s r.current r.best1) r.best1) := by
  refine ⟨?_, ?_, ?_, ?_, ?_⟩
  · intro s i w actions
    rfl
  · intro s r h1 h2
    rw [CC.restructure_step, if_pos ⟨h1, h2⟩]
  · intro s r q nm hskip hgbo hle
    rw [CC.restructure_step, if_neg hskip]
    simp only [hgbo]
    rw [if_pos hle]
  · intro s r q b2 hskip hgbo hlt hb2 h23
    rw [CC.restructure_step, if_neg hskip]
    simp only [hgbo]
    simp only [hb2]
    simp [not_le.mpr hlt, h23]
  · intro s r q hskip hgbo hlt h12
    rw [CC.restructure_step, if_neg hskip]
    simp only [hgbo]
    simp [not_le.mpr hlt, h12]

theorem C6_witness :
    (CC.getNode Fixtures.s2 0).childrenIds.length ≤ 2 ∧
      (CC.getNode Fixtures.s2 1).childrenIds.length = 0 ∧
      CC.restructure_step Fixtures.s2 ⟨0, 0, 0, some 2, 1⟩ = (.ok (), Fixtures.s2) :=
  ⟨by decide, by decide,
   C6_increment_and_restructure_spec.2.1 Fixtures.s2 ⟨0, 0, 0, some 2, 1⟩
     (by decide) (by decide)⟩

/-- C1 (code bug): whenever `infer_from_context` returns normally, the
returned value is the Python `None` — the `predict` override of the node
class computes the base-class prediction but never returns it — whereas
the base-class prediction at a leaf (`predict_base`, what the spec calls
the predicted value of the `Anchor` attribute) can be an actual value. -/
theorem C1_infer_from_context_returns_none :
    (∀ (oF iF : ℕ) (s : CC.TreeState) (instances : List (Option CC.Inst))
        (cs : ℕ) (ck : String) (v : Option String) (s1 : CC.TreeState),
        CC.infer_from_context oF iF s instances cs ck = (.ok v, s1) → v = none) ∧
    CC.predict_base Fixtures.anchorLeaf "Anchor" = some "y" := by
  constructor
  · intro oF iF s instances cs ck v s1 h
    simp only [CC.infer_from_context] at h
    split at h
    · exact absurd h (by simp)
    · split at h
      · exact absurd h (by simp)
      · split at h
        · exact absurd h (by simp)
        · split at h
          · exact absurd h (by simp)
          · split at h
            · exact absurd h (by simp)
            · split at h
              · exact absurd h (by simp)
              · rw [CC.predict, if_neg (by decide)] at h
                simp only [Prod.mk.injEq, Except.ok.injEq] at h
                exact h.1.symm
  · rfl

theorem C1_witness :
    (CC.infer_from_context 8 8 CC.init
        [some Fixtures.cInst, none, some Fixtures.cInst] 4 "symmetric_window").1 =
      Except.ok none := by
  have h : CC.infer_from_context 8 8 CC.init
      [some Fixtures.cInst, none, some Fixtures.cInst] 4 "symmetric_window" =
      (Except.ok (none : Option String),
        (CC.infer_from_context 8 8 CC.init
          [some Fixtures.cInst, none, some Fixtures.cInst] 4 "symmetric_window").2) := by
    decide
  have hv := C1_infer_from_context_returns_none.1 8 8 CC.init
    [some Fixtures.cInst, none, some Fixtures.cInst] 4 "symmetric_window" none _ h
  rw [h]

/-- C2 (counterexample): a fresh leaf built from exactly one instance that
carries a context handle satisfies the condition of the claim — every
non-hidden attribute present with full count and the `CTX` keys equal to
the context list — yet `is_exact_match` returns false, because the source
compares the context list against the counter key view, which never
succeeds in Python. -/
theorem C2_counterexample :
    EM.claim_cond Fixtures.c2Node Fixtures.c2Inst = true ∧
      EM.is_exact_match Fixtures.c2Node Fixtures.c2Inst = false := by
  constructor
  · decide
  · decide

/-- C2 (amended): `is_exact_match` returns true exactly when the node and
the instance have the same non-hidden attribute names, the instance carries
no `CTX` entry, and every attribute passes the per-attribute source check;
in particular the match always fails once `CTX` is present. -/
theorem C2_is_exact_match_characterization :
    ∀ (n : EM.EMNode) (i : EM.EMInst),
      EM.is_exact_match n i = EM.amended_cond n i := by
  intro n i
  rw [EM.is_exact_match, EM.amended_cond]
  cases hset : EM.set_eq (EM.node_attr_names n) (EM.inst_attr_names i) with
  | false => simp
  | true =>
    simp only [Bool.not_true, Bool.false_eq_true, if_false, Bool.true_and]
    cases hctx : i.ctx with
    | some l =>
      have hca_inst : EM.ca_key ∈ EM.inst_attr_names i := by
        rw [EM.inst_attr_names, hctx]
        simp
      have hca_self : EM.ca_key ∈ EM.node_attr_names n :=
        (set_eq_mem hset EM.ca_key).2 hca_inst
      have hok : EM.attr_ok n i EM.ca_key = false := by
        rw [EM.attr_ok, if_pos (by simp)]
        cases hcc : n.ctxCounts with
        | some tbl =>
          rw [hctx]
          simp [EM.list_eq_keys_view]
        | none =>
          rw [hctx]
      have hall : (EM.node_attr_names n).all (fun attr => EM.attr_ok n i attr) = false :=
        List.all_eq_false.mpr ⟨EM.ca_key, hca_self, by rw [hok]; exact Bool.false_ne_true⟩
      rw [hall]
      simp [hctx]
    | none =>
      simp only [hctx, Option.isNone_none, Bool.true_and]
      exact all_eq_of_set_eq hset _

/-- C3 (counterexample): two identical instances do not end in a single
leaf of count two: the run returns two distinct leaves, the root has two
children, and one fringe split happened — the second commit cannot match
the first leaf exactly, since the leaf holds the context handle of the
second instance while the second instance holds the handle of the first,
and the context comparison of `is_exact_match` never succeeds anyway. -/
theorem C3_counterexample :
    (CC.contextual_ifit 10 10 CC.init [Fixtures.cInst, Fixtures.cInst] 4
        "symmetric_window").1 = .ok [0, 2] ∧
      ¬ CC.single_leaf_no_fringe
          (CC.contextual_ifit 10 10 CC.init [Fixtures.cInst, Fixtures.cInst] 4
            "symmetric_window").2 2 := by
  constructor
  · decide
  · intro h
    exact absurd h.2.2 (by decide)

/-- C3 (amended): only singleton inputs satisfy the prediction — a single
instance is committed into the root leaf, which ends with count one,
remains childless, and no fringe split happens. -/
theorem C3_singleton_single_leaf :
    ∀ (al : List (String × String)) (oF iF : ℕ), 1 ≤ iF → 2 ≤ oF →
      (CC.contextual_ifit oF iF CC.init [⟨al, none⟩] 4 "symmetric_window").1 =
          .ok [0] ∧
        CC.single_leaf_no_fringe
          (CC.contextual_ifit oF iF CC.init [⟨al, none⟩] 4 "symmetric_window").2 1 := by
  intro al oF iF hiF hoF
  obtain ⟨k, rfl⟩ : ∃ k, iF = k + 1 := ⟨iF - 1, by omega⟩
  obtain ⟨m, rfl⟩ : ∃ m, oF = m + 2 := ⟨oF - 2, by omega⟩
  exact ⟨rfl, rfl, rfl, rfl⟩

theorem C3_witness :
    1 ≤ 10 ∧ 2 ≤ 10 ∧
      ((CC.contextual_ifit 10 10 CC.init [⟨[("a", "1")], none⟩] 4
          "symmetric_window").1 = .ok [0] ∧
        CC.single_leaf_no_fringe
          (CC.contextual_ifit 10 10 CC.init [⟨[("a", "1")], none⟩] 4
            "symmetric_window").2 1) :=
  ⟨by decide, by decide,
   C3_singleton_single_leaf [("a", "1")] 10 10 (by decide) (by decide)⟩

end ConceptFormation
